import Mathlib

/-!
Verification development for the FFmpeg process-supervision engine
(`ffmpeg_executor.h`): line reassembly from byte chunks, per-line heuristic
classification (overwrite prompt / error / success), result finalization from
the exit status, the concurrent-execution guard, cancellation, and the
persistence of the last-error text across executions.

Lines and byte buffers are modelled as `List Char`; `std::tolower` (C locale)
lowers the ASCII range `A`-`Z` and leaves every other byte unchanged, which the
char-level `toLowerChar` reproduces.  A substring search (`std::string::find`
... `!= npos`) is contiguous-sublist containment, modelled with `<:+:`.
-/

namespace FFmpegExec

/-- Char-level model of `std::tolower` in the C locale: ASCII uppercase is
shifted to lowercase, every other character is unchanged. -/
def toLowerChar (c : Char) : Char :=
  if 'A' ≤ c ∧ c ≤ 'Z' then Char.ofNat (c.toNat + 32) else c

/-- Model of `FFmpegExecutor::toLower`: lower every character of the line. -/
def toLower (l : List Char) : List Char := l.map toLowerChar

/-- Model of `hay.find(pat) != std::string::npos`: `pat` occurs as a
contiguous substring of `hay`. -/
def containsSub (hay pat : List Char) : Bool := decide (pat <:+: hay)

/-- Model of the single-trailing-CR strip in `FFmpegExecutor::processOutput`
(lines 591-594): if the line is nonempty and ends in `\r`, drop that char. -/
def stripCR (l : List Char) : List Char :=
  match l.getLast? with
  | some c => if c = '\r' then l.dropLast else l
  | none => l

/-- Scanning loop of `FFmpegExecutor::processOutput` (lines 586-601) on
`cur ++ s` where `cur` holds the bytes already scanned past without finding a
newline: each `\n` terminates the current line (with `stripCR`), the bytes
after the last newline become the new carry-over (second component). -/
def splitAux : List Char → List Char → List (List Char) × List Char
  | cur, [] => ([], cur)
  | cur, c :: rest =>
    if c = '\n' then
      (stripCR cur :: (splitAux [] rest).1, (splitAux [] rest).2)
    else
      splitAux (cur ++ [c]) rest

/-- Model of `FFmpegExecutor::processOutput` (lines 582-602): concatenate the
carry-over with the new chunk, extract every newline-terminated line in order
(first component, in the order they are passed to `processLine`), and return
the remainder as the new carry-over (second component). -/
def processOutput (output remaining : List Char) : List (List Char) × List Char :=
  splitAux [] (remaining ++ output)

/-- One read-loop iteration's effect on the accumulated (lines, carry-over)
pair: feed the next chunk through `processOutput` with the threaded
carry-over. -/
def feedStep (acc : List (List Char) × List Char) (chunk : List Char) :
    List (List Char) × List Char :=
  ((acc.1 ++ (processOutput chunk acc.2).1), (processOutput chunk acc.2).2)

/-- Feeding a whole sequence of chunks through `processOutput`, threading the
carry-over exactly as `executeUnix` / `executeWindows` thread
`remaining_output` (initially empty, line 500 / 357). -/
def feedChunks (chunks : List (List Char)) : List (List Char) × List Char :=
  chunks.foldl feedStep ([], [])

/-- Specification-side splitter, written from the spec words: split the byte
stream at every newline, keep the completed segments (drop the trailing
unterminated one), and strip a single trailing carriage return from each. -/
def splitSpecLines (s : List Char) : List (List Char) :=
  ((s.splitOnP (· == '\n')).dropLast).map stripCR

/-- The nine error keywords of `FFmpegExecutor::detectError` (lines 201-204). -/
def errorKeywords : List (List Char) :=
  ["error".toList, "failed".toList, "invalid".toList, "unable".toList,
   "cannot".toList, "unknown".toList, "not found".toList,
   "permission denied".toList, "access denied".toList]

/-- Keyword loop of `FFmpegExecutor::detectError` (lines 206-215): for each
keyword in order, if it occurs in the lowered line, `continue` when the line
also contains "non-monotonous", otherwise return true. -/
def detectErrorGo (ll : List Char) : List (List Char) → Bool
  | [] => false
  | kw :: rest =>
    if containsSub ll kw then
      if containsSub ll ("non-monotonous".toList) then detectErrorGo ll rest
      else true
    else detectErrorGo ll rest

/-- Model of `FFmpegExecutor::detectError` (lines 197-218). -/
def detectError (line : List Char) : Bool :=
  detectErrorGo (toLower line) errorKeywords

/-- Model of `FFmpegExecutor::detectOverwritePrompt` (lines 167-190): three
patterns, the first two on the lowered line, the third (Chinese UI) on the raw
line. -/
def detectOverwritePrompt (line : List Char) : Bool :=
  if containsSub (toLower line) ("already exists".toList)
      && containsSub (toLower line) ("overwrite".toList) then true
  else if containsSub (toLower line) ("overwrite?".toList)
      || containsSub (toLower line) ("overwrite (y/n)".toList) then true
  else if containsSub line ("已存在".toList) && containsSub line ("覆盖".toList) then true
  else false

/-- Model of `FFmpegExecutor::detectSuccess` (lines 225-241). -/
def detectSuccess (line : List Char) : Bool :=
  if containsSub (toLower line) ("video:".toList)
      && containsSub (toLower line) ("audio:".toList)
      && containsSub (toLower line) ("subtitle:".toList) then true
  else if containsSub (toLower line) ("muxing overhead".toList) then true
  else false

/-- Model of `FFmpegExecutor::ExecuteResult` (lines 42-49); strings are byte
lists, default-constructed empty. -/
structure ExecuteResult where
  success : Bool
  exitCode : Int
  output : List Char
  errMsg : List Char
  overwritePrompted : Bool
  overwriteConfirmed : Bool
deriving DecidableEq

/-- The per-execution mutable state touched by the classifier: the executor's
`auto_overwrite_`, `output_buffer_` and `last_error_` fields, the log of
strings passed to `sendInput` (the write attempts on the child's feed pipe,
in order; the fd-open guard inside `sendInput` is OS state, the call itself
is what is modelled), and the `ExecuteResult` being built. -/
structure ExecState where
  autoOverwrite : Bool
  outputBuffer : List Char
  lastError : List Char
  sentInputs : List (List Char)
  result : ExecuteResult
deriving DecidableEq

/-- Model of `FFmpegExecutor::processLine` (lines 248-274): append the line
plus newline to the output buffer, then the overwrite-prompt test (setting
`overwritePrompted`, and on auto-overwrite `overwriteConfirmed` plus a
`sendInput("y\n")` call), then the error test (recording the line as
`last_error_` and `result.error`), then the success test. -/
def processLine (line : List Char) (st : ExecState) : ExecState :=
  let st1 := { st with outputBuffer := st.outputBuffer ++ line ++ ['\n'] }
  let st2 :=
    if detectOverwritePrompt line then
      let stp := { st1 with result := { st1.result with overwritePrompted := true } }
      if stp.autoOverwrite then
        { stp with
            result := { stp.result with overwriteConfirmed := true },
            sentInputs := stp.sentInputs ++ ["y\n".toList] }
      else stp
    else st1
  let st3 :=
    if detectError line then
      { st2 with lastError := line, result := { st2.result with errMsg := line } }
    else st2
  if detectSuccess line then
    { st3 with result := { st3.result with success := true } }
  else st3

/-- Termination status observed by the `waitpid` poll in `executeUnix`:
a normal exit with its `WEXITSTATUS` (a value in 0..255), or a
signal-caused termination (`WIFEXITED` false). -/
inductive ExitStatus where
  | exited (code : Nat)
  | signaled
deriving DecidableEq

/-- The `ExecuteResult` initialization in `FFmpegExecutor::execute`
(lines 70-74); `output` and `error` are default-constructed empty strings. -/
def initResult : ExecuteResult :=
  { success := false, exitCode := -1, output := [], errMsg := [],
    overwritePrompted := false, overwriteConfirmed := false }

/-- State at the start of one execution: `execute` clears `output_buffer_`
(line 82) and initializes the result, but does NOT clear `last_error_`,
which persists from earlier executions. -/
def initExec (autoOv : Bool) (priorLastError : List Char) : ExecState :=
  { autoOverwrite := autoOv, outputBuffer := [], lastError := priorLastError,
    sentInputs := [], result := initResult }

/-- Processing a list of completed lines in order through `processLine`. -/
def runLines (lines : List (List Char)) (st : ExecState) : ExecState :=
  lines.foldl (fun s l => processLine l s) st

/-- Model of the exit observation in `executeUnix` (lines 507-517): `none`
means the read loop ended without `waitpid` observing termination (stop or
read error); on a normal exit the code is stored and, when it is 0 and no
success was recorded, `success` is set; on a signal-caused termination the
code stores -1. -/
def finalize (obs : Option ExitStatus) (st : ExecState) : ExecState :=
  match obs with
  | none => st
  | some (ExitStatus.exited c) =>
    let stc := { st with result := { st.result with exitCode := (c : Int) } }
    if stc.result.exitCode = 0 ∧ stc.result.success = false then
      { stc with result := { stc.result with success := true } }
    else stc
  | some ExitStatus.signaled =>
    { st with result := { st.result with exitCode := -1 } }

/-- The final `result.output = output_buffer_` assignment (lines 546-549). -/
def setFinalOutput (st : ExecState) : ExecState :=
  { st with result := { st.result with output := st.outputBuffer } }

/-- One full `executeUnix` run on the successful-launch path, at line
granularity: `loopLines` are the completed lines delivered before the
`waitpid` poll observes `obs`; the tie-break finalization runs at the loop
break, and THEN the final drain (lines 537-540) delivers `drainLines`. -/
def execRun (autoOv : Bool) (prior : List Char)
    (loopLines drainLines : List (List Char)) (obs : Option ExitStatus) :
    ExecState :=
  setFinalOutput (runLines drainLines (finalize obs (runLines loopLines (initExec autoOv prior))))

/-- The executor-instance fields that persist across calls: `is_running_`,
`auto_overwrite_`, `last_error_`, and `child_pid_` (initialized to -1 at
line 146 and, notably, never reset by `cleanupUnixPipes`). -/
structure ExecutorState where
  isRunning : Bool
  autoOverwrite : Bool
  lastError : List Char
  childPid : Int
deriving DecidableEq

/-- A freshly constructed `FFmpegExecutor` (line 54 and field initializers). -/
def initialExecutor : ExecutorState :=
  { isRunning := false, autoOverwrite := true, lastError := [], childPid := -1 }

/-- The busy message set at line 77 when `execute` is called re-entrantly. -/
def busyMsg : List Char := "FFmpeg命令已经在执行中".toList

/-- Model of `FFmpegExecutor::execute` (lines 69-94) on the successful-launch
path: if `is_running_`, return immediately with the busy error, no launch.
Otherwise run the child (whose fork pid, delivered lines and observed exit
parameterize the run), record the pid in `child_pid_`, and clear the running
flag.  Returns the executor state after the call, the `ExecuteResult`, and
whether a process launch was attempted. -/
def executeStep (es : ExecutorState) (pid : Int)
    (loopLines drainLines : List (List Char)) (obs : Option ExitStatus) :
    ExecutorState × ExecuteResult × Bool :=
  if es.isRunning then
    (es, { initResult with errMsg := busyMsg }, false)
  else
    ( { es with
          lastError := (execRun es.autoOverwrite es.lastError loopLines drainLines obs).lastError,
          childPid := pid,
          isRunning := false },
      (execRun es.autoOverwrite es.lastError loopLines drainLines obs).result,
      true)

/-- Model of `FFmpegExecutor::stop` (lines 107-119, Unix path): clear the
running flag; the second component records whether a `SIGTERM` is issued,
which happens exactly when `child_pid_ > 0`. -/
def stop (es : ExecutorState) : ExecutorState × Bool :=
  ({ es with isRunning := false }, decide (0 < es.childPid))

/-- Model of `FFmpegExecutor::getLastError` (lines 125-127). -/
def getLastError (es : ExecutorState) : List Char := es.lastError

/-! ## Lemmas about the line splitter -/

theorem splitAux_nil (cur : List Char) : splitAux cur [] = ([], cur) := rfl

theorem splitAux_cons (cur : List Char) (c : Char) (rest : List Char) :
    splitAux cur (c :: rest) =
      if c = '\n' then
        (stripCR cur :: (splitAux [] rest).1, (splitAux [] rest).2)
      else splitAux (cur ++ [c]) rest := rfl

/-- Scanning `s ++ t` is scanning `s`, then scanning `t` from the carry-over
that `s` left behind. -/
theorem splitAux_append (s t : List Char) : ∀ cur,
    splitAux cur (s ++ t) =
      ((splitAux cur s).1 ++ (splitAux (splitAux cur s).2 t).1,
        (splitAux (splitAux cur s).2 t).2) := by
  induction s with
  | nil => intro cur; simp [splitAux_nil]
  | cons c s ih =>
    intro cur
    by_cases hc : c = '\n'
    · simp [splitAux_cons, hc, ih []]
    · simp [splitAux_cons, hc, ih (cur ++ [c])]

/-- The carry-over left by the scanner never contains a newline (provided the
starting accumulator does not). -/
theorem splitAux_snd_no_newline (s : List Char) : ∀ cur,
    '\n' ∉ cur → '\n' ∉ (splitAux cur s).2 := by
  induction s with
  | nil => intro cur h; simpa [splitAux_nil] using h
  | cons c s ih =>
    intro cur h
    by_cases hc : c = '\n'
    · simpa [splitAux_cons, hc] using ih [] (by simp)
    · have h2 : ('\n' : Char) ∉ cur ++ [c] := by
        intro hmem
        rcases List.mem_append.mp hmem with h1 | h1
        · exact h h1
        · exact hc (List.mem_singleton.mp h1).symm
      simpa [splitAux_cons, hc] using ih (cur ++ [c]) h2

/-- A newline-free prefix of the input can be moved into the accumulator. -/
theorem splitAux_carry (a : List Char) : ∀ cur t, '\n' ∉ a →
    splitAux cur (a ++ t) = splitAux (cur ++ a) t := by
  induction a with
  | nil => intro cur t _; simp
  | cons c a ih =>
    intro cur t h
    have hc : ¬ c = '\n' := fun hh => h (by simp [hh])
    have ha : ('\n' : Char) ∉ a := fun hh => h (List.mem_cons_of_mem _ hh)
    rw [List.cons_append, splitAux_cons, if_neg hc, ih (cur ++ [c]) t ha]
    congr 1
    simp

/-- Folding the chunks through `feedStep` from any accumulated state is the
one-shot scan of the carry-over followed by all remaining bytes. -/
theorem feedChunks_go (chunks : List (List Char)) : ∀ lines0 rem, '\n' ∉ rem →
    chunks.foldl feedStep (lines0, rem) =
      (lines0 ++ (splitAux [] (rem ++ chunks.flatten)).1,
        (splitAux [] (rem ++ chunks.flatten)).2) := by
  induction chunks with
  | nil =>
    intro lines0 rem h
    have hres : splitAux [] rem = ([], rem) := by
      have hc := splitAux_carry rem [] [] h
      simpa [splitAux_nil] using hc
    simp [List.foldl_nil, List.flatten_nil, List.append_nil, hres]
  | cons c cs ih =>
    intro lines0 rem h
    have hstep : feedStep (lines0, rem) c =
        (lines0 ++ (splitAux [] (rem ++ c)).1, (splitAux [] (rem ++ c)).2) := rfl
    have h2 : ('\n' : Char) ∉ (splitAux [] (rem ++ c)).2 :=
      splitAux_snd_no_newline (rem ++ c) [] (by simp)
    have hcarry := splitAux_carry (splitAux [] (rem ++ c)).2 [] cs.flatten h2
    simp only [List.nil_append] at hcarry
    have happ := splitAux_append (rem ++ c) cs.flatten []
    rw [List.foldl_cons, hstep, ih _ _ h2, hcarry, List.flatten_cons,
      show rem ++ (c ++ cs.flatten) = (rem ++ c) ++ cs.flatten by simp, happ,
      List.append_assoc]

/-- Key helper: `modifyHead` twice composes. -/
theorem modifyHead_modifyHead (f g : List Char → List Char)
    (X : List (List Char)) :
    (X.modifyHead g).modifyHead f = X.modifyHead (fun x => f (g x)) := by
  cases X <;> simp

/-- Key helper: `modifyHead` with prepending nothing is the identity. -/
theorem modifyHead_nil_append (X : List (List Char)) :
    X.modifyHead (fun x => [] ++ x) = X := by
  cases X <;> simp

/-- The scanner's completed lines are exactly the newline-split segments
(minus the trailing unterminated one) with the carry-over prepended to the
first and `stripCR` applied to each. -/
theorem splitAux_fst_eq_splitOnP (s : List Char) : ∀ cur,
    (splitAux cur s).1 =
      (((s.splitOnP (· == '\n')).modifyHead (fun x => cur ++ x)).dropLast).map stripCR := by
  induction s with
  | nil =>
    intro cur
    simp [splitAux_nil, List.splitOnP_nil]
  | cons c s ih =>
    intro cur
    by_cases hc : c = '\n'
    · subst hc
      rw [splitAux_cons, if_pos rfl, List.splitOnP_cons]
      simp only [beq_self_eq_true, if_pos, List.modifyHead_cons, List.append_nil]
      rw [List.dropLast_cons_of_ne_nil (List.splitOnP_ne_nil _ _), List.map_cons]
      rw [ih [], modifyHead_nil_append]
    · rw [splitAux_cons, if_neg hc, ih (cur ++ [c]), List.splitOnP_cons]
      have hbeq : (c == '\n') = false := beq_eq_false_iff_ne.mpr hc
      rw [hbeq, if_neg (by simp), modifyHead_modifyHead]
      have hfun : (fun x : List Char => cur ++ [c] ++ x) =
          (fun x : List Char => cur ++ c :: x) := by
        funext x; simp
      rw [hfun]

/-- The one-shot scan from an empty carry-over computes `splitSpecLines`. -/
theorem splitAux_fst_spec (s : List Char) :
    (splitAux [] s).1 = splitSpecLines s := by
  rw [splitAux_fst_eq_splitOnP s [], splitSpecLines, modifyHead_nil_append]

/-! ## Lemmas about per-line classification and finalization -/

/-- Full field-wise characterization of `processLine`. -/
theorem processLine_eq (l : List Char) (st : ExecState) :
    processLine l st =
      { autoOverwrite := st.autoOverwrite,
        outputBuffer := st.outputBuffer ++ l ++ ['\n'],
        lastError := if detectError l then l else st.lastError,
        sentInputs := st.sentInputs ++
          (if detectOverwritePrompt l && st.autoOverwrite then ["y\n".toList] else []),
        result :=
          { success := st.result.success || detectSuccess l,
            exitCode := st.result.exitCode,
            output := st.result.output,
            errMsg := if detectError l then l else st.result.errMsg,
            overwritePrompted := st.result.overwritePrompted || detectOverwritePrompt l,
            overwriteConfirmed := st.result.overwriteConfirmed ||
              (detectOverwritePrompt l && st.autoOverwrite) } } := by
  unfold processLine
  by_cases h1 : detectOverwritePrompt l = true <;>
    by_cases h2 : st.autoOverwrite = true <;>
      by_cases h3 : detectError l = true <;>
        by_cases h4 : detectSuccess l = true <;>
          simp [h1, h2, h3, h4]

theorem runLines_nil (st : ExecState) : runLines [] st = st := rfl

theorem runLines_cons (l : List Char) (ls : List (List Char)) (st : ExecState) :
    runLines (l :: ls) st = runLines ls (processLine l st) := rfl

theorem runLines_autoOv (lines : List (List Char)) : ∀ st : ExecState,
    (runLines lines st).autoOverwrite = st.autoOverwrite := by
  induction lines with
  | nil => intro st; rfl
  | cons l ls ih => intro st; rw [runLines_cons, ih, processLine_eq]

theorem runLines_success (lines : List (List Char)) : ∀ st : ExecState,
    (runLines lines st).result.success =
      (st.result.success || lines.any detectSuccess) := by
  induction lines with
  | nil => intro st; simp [runLines_nil]
  | cons l ls ih =>
    intro st
    rw [runLines_cons, ih, processLine_eq]
    simp [List.any_cons, Bool.or_assoc]

theorem runLines_exitCode (lines : List (List Char)) : ∀ st : ExecState,
    (runLines lines st).result.exitCode = st.result.exitCode := by
  induction lines with
  | nil => intro st; rfl
  | cons l ls ih => intro st; rw [runLines_cons, ih, processLine_eq]

theorem runLines_prompted (lines : List (List Char)) : ∀ st : ExecState,
    (runLines lines st).result.overwritePrompted =
      (st.result.overwritePrompted || lines.any detectOverwritePrompt) := by
  induction lines with
  | nil => intro st; simp [runLines_nil]
  | cons l ls ih =>
    intro st
    rw [runLines_cons, ih, processLine_eq]
    simp [List.any_cons, Bool.or_assoc]

theorem runLines_confirmed (lines : List (List Char)) : ∀ st : ExecState,
    (runLines lines st).result.overwriteConfirmed =
      (st.result.overwriteConfirmed ||
        (lines.any detectOverwritePrompt && st.autoOverwrite)) := by
  induction lines with
  | nil => intro st; simp [runLines_nil]
  | cons l ls ih =>
    intro st
    rw [runLines_cons, ih, processLine_eq]
    simp only [List.any_cons]
    cases st.result.overwriteConfirmed <;> cases st.autoOverwrite <;>
      cases detectOverwritePrompt l <;> simp

theorem runLines_lastError_clean (lines : List (List Char)) : ∀ st : ExecState,
    (∀ l ∈ lines, detectError l = false) →
      (runLines lines st).lastError = st.lastError := by
  induction lines with
  | nil => intro st _; rfl
  | cons l ls ih =>
    intro st h
    rw [runLines_cons, ih _ (fun x hx => h x (List.mem_cons_of_mem _ hx)),
      processLine_eq]
    simp [h l (List.mem_cons_self l ls)]

theorem finalize_success (obs : Option ExitStatus) (st : ExecState) :
    (finalize obs st).result.success =
      (st.result.success || decide (obs = some (ExitStatus.exited 0))) := by
  match obs with
  | none => simp [finalize]
  | some (ExitStatus.exited c) =>
    by_cases hc : c = 0
    · subst hc
      cases hs : st.result.success <;> simp [finalize, hs]
    · have hci : (c : Int) ≠ 0 := by exact_mod_cast hc
      cases hs : st.result.success <;> simp [finalize, hs, hci, hc]
  | some ExitStatus.signaled => simp [finalize]

theorem finalize_exitCode (obs : Option ExitStatus) (st : ExecState) :
    (finalize obs st).result.exitCode =
      (match obs with
        | none => st.result.exitCode
        | some (ExitStatus.exited c) => (c : Int)
        | some ExitStatus.signaled => -1) := by
  match obs with
  | none => rfl
  | some (ExitStatus.exited c) =>
    simp only [finalize]
    split <;> rfl
  | some ExitStatus.signaled => rfl

theorem finalize_prompted (obs : Option ExitStatus) (st : ExecState) :
    (finalize obs st).result.overwritePrompted = st.result.overwritePrompted := by
  match obs with
  | none => rfl
  | some (ExitStatus.exited c) =>
    simp only [finalize]
    split <;> rfl
  | some ExitStatus.signaled => rfl

theorem finalize_confirmed (obs : Option ExitStatus) (st : ExecState) :
    (finalize obs st).result.overwriteConfirmed = st.result.overwriteConfirmed := by
  match obs with
  | none => rfl
  | some (ExitStatus.exited c) =>
    simp only [finalize]
    split <;> rfl
  | some ExitStatus.signaled => rfl

theorem finalize_lastError (obs : Option ExitStatus) (st : ExecState) :
    (finalize obs st).lastError = st.lastError := by
  match obs with
  | none => rfl
  | some (ExitStatus.exited c) =>
    simp only [finalize]
    split <;> rfl
  | some ExitStatus.signaled => rfl

theorem setFinalOutput_success (st : ExecState) :
    (setFinalOutput st).result.success = st.result.success := rfl

theorem setFinalOutput_exitCode (st : ExecState) :
    (setFinalOutput st).result.exitCode = st.result.exitCode := rfl

theorem setFinalOutput_prompted (st : ExecState) :
    (setFinalOutput st).result.overwritePrompted = st.result.overwritePrompted := rfl

theorem setFinalOutput_confirmed (st : ExecState) :
    (setFinalOutput st).result.overwriteConfirmed = st.result.overwriteConfirmed := rfl

theorem setFinalOutput_lastError (st : ExecState) :
    (setFinalOutput st).lastError = st.lastError := rfl

theorem finalize_autoOv (obs : Option ExitStatus) (st : ExecState) :
    (finalize obs st).autoOverwrite = st.autoOverwrite := by
  match obs with
  | none => rfl
  | some (ExitStatus.exited c) =>
    simp only [finalize]
    split <;> rfl
  | some ExitStatus.signaled => rfl

theorem containsSub_iff (hay pat : List Char) :
    containsSub hay pat = true ↔ pat <:+: hay := by
  simp [containsSub]

/-- The keyword loop of `detectError` returns true exactly when some keyword
occurs and the "non-monotonous" marker does not. -/
theorem detectErrorGo_eq (ll : List Char) (kws : List (List Char)) :
    detectErrorGo ll kws =
      (kws.any (fun kw => containsSub ll kw) &&
        !(containsSub ll ("non-monotonous".toList))) := by
  induction kws with
  | nil => simp [detectErrorGo]
  | cons kw rest ih =>
    by_cases h1 : containsSub ll kw = true <;>
      by_cases h2 : containsSub ll ("non-monotonous".toList) = true <;>
        simp [detectErrorGo, h1, h2, ih]

/-! ## Claim theorems -/

/-- C1: for every sequence of byte chunks fed to `processOutput` with the
carry-over threaded between calls, the sequence of completed lines passed to
`processLine` is exactly the result of splitting the concatenation of all
chunks on newline boundaries with a single trailing carriage return stripped
from each line; the result depends only on the concatenation, not on where
the chunk boundaries fall. -/
theorem C1_line_reassembly_chunk_invariant (chunks : List (List Char)) :
    (feedChunks chunks).1 = splitSpecLines chunks.flatten ∧
    feedChunks chunks = processOutput chunks.flatten [] := by
  have h := feedChunks_go chunks [] [] (by simp)
  simp only [List.nil_append] at h
  constructor
  · rw [feedChunks, h, splitAux_fst_spec]
  · rw [feedChunks, h, processOutput]
    simp

/-- C2 counterexample: a run whose only line is an error line (recorded in
`errMsg`, no success pattern fired) and whose exit code is 0 DOES get
`success = true` from the exit-code tie-break, because the code checks only
`exitCode == 0 && !success` and ignores the recorded error. -/
theorem C2_counterexample_tiebreak_ignores_error :
    (execRun true [] ["Error: Invalid argument".toList] []
        (some (ExitStatus.exited 0))).result.success = true ∧
    (execRun true [] ["Error: Invalid argument".toList] []
        (some (ExitStatus.exited 0))).result.errMsg = "Error: Invalid argument".toList ∧
    (runLines ["Error: Invalid argument".toList] (initExec true [])).result.success
      = false := by
  decide

/-- C2 (amended): at finalization, success is set from the exit code exactly
when the exit code is 0 and no success pattern has fired; a recorded error
line does not block the tie-break, so the final `success` is true iff some
processed line matched the success patterns or the observed exit was a normal
exit with code 0. -/
theorem C2_tiebreak_amended (autoOv : Bool) (prior : List Char)
    (loopLines drainLines : List (List Char)) (obs : Option ExitStatus) :
    (execRun autoOv prior loopLines drainLines obs).result.success = true ↔
      ((loopLines.any detectSuccess || drainLines.any detectSuccess) = true ∨
        obs = some (ExitStatus.exited 0)) := by
  rw [execRun, setFinalOutput_success, runLines_success, finalize_success,
    runLines_success]
  simp only [initExec, initResult, Bool.false_or]
  cases hla : loopLines.any detectSuccess <;>
    cases hda : drainLines.any detectSuccess <;>
      by_cases hobs : obs = some (ExitStatus.exited 0) <;>
        simp [hobs]

/-- Witness for C2 (amended): exit code 0 with no matching lines yields
`success = true`. -/
theorem C2_tiebreak_amended_witness :
    (execRun true [] [] [] (some (ExitStatus.exited 0))).result.success = true :=
  (C2_tiebreak_amended true [] [] [] (some (ExitStatus.exited 0))).mpr (Or.inr rfl)

/-- C3: a line is classified as an error (and recorded as the last error line
and in `result.error`) exactly when some keyword of the fixed set occurs in
the lowered line AND the lowered line does not contain "non-monotonous"; in
particular any line containing "non-monotonous DTS" is never recorded, and a
non-error line leaves the stored last error unchanged. -/
theorem C3_error_heuristic (line : List Char) (st : ExecState) :
    (detectError line = true ↔
      ((∃ kw ∈ errorKeywords, kw <:+: toLower line) ∧
        ¬ (("non-monotonous".toList) <:+: toLower line))) ∧
    (("non-monotonous DTS".toList) <:+: line → detectError line = false) ∧
    (detectError line = true →
      (processLine line st).lastError = line ∧
        (processLine line st).result.errMsg = line) ∧
    (detectError line = false → (processLine line st).lastError = st.lastError) := by
  have hiff : detectError line = true ↔
      ((∃ kw ∈ errorKeywords, kw <:+: toLower line) ∧
        ¬ (("non-monotonous".toList) <:+: toLower line)) := by
    rw [detectError, detectErrorGo_eq]
    simp [containsSub]
  refine ⟨hiff, ?_, ?_, ?_⟩
  · intro h
    have hnm : ("non-monotonous".toList) <:+: toLower line := by
      have hmap := List.IsInfix.map toLowerChar h
      have hsub : ("non-monotonous".toList) <:+:
          (("non-monotonous DTS".toList).map toLowerChar) := by decide
      exact hsub.trans hmap
    cases hdet : detectError line
    · rfl
    · exact absurd hnm (hiff.mp hdet).2
  · intro h
    rw [processLine_eq]
    simp [h]
  · intro h
    rw [processLine_eq]
    simp [h]

/-- Witness for C3: a line containing "non-monotonous DTS" is not an error;
a plain error line is recorded verbatim as the last error. -/
theorem C3_error_heuristic_witness :
    detectError ("av: non-monotonous DTS in stream".toList) = false ∧
    (processLine ("Error: Invalid argument".toList) (initExec true [])).lastError
      = "Error: Invalid argument".toList := by
  constructor
  · exact (C3_error_heuristic ("av: non-monotonous DTS in stream".toList)
      (initExec true [])).2.1 (by decide)
  · exact ((C3_error_heuristic ("Error: Invalid argument".toList)
      (initExec true [])).2.2.1 (by decide)).1

/-- C4: at every point of an execution (after any number of processed lines,
and after exit-code finalization plus the final drain), `overwriteConfirmed`
implies `overwritePrompted`. -/
theorem C4_overwrite_invariant (autoOv : Bool) (prior : List Char)
    (loopLines drainLines : List (List Char)) (obs : Option ExitStatus) :
    ((runLines loopLines (initExec autoOv prior)).result.overwriteConfirmed = true →
      (runLines loopLines (initExec autoOv prior)).result.overwritePrompted = true) ∧
    ((execRun autoOv prior loopLines drainLines obs).result.overwriteConfirmed = true →
      (execRun autoOv prior loopLines drainLines obs).result.overwritePrompted = true) := by
  constructor
  · intro h
    rw [runLines_confirmed] at h
    rw [runLines_prompted]
    simp only [initExec, initResult, Bool.false_or, Bool.and_eq_true] at h
    simp [h.1]
  · intro h
    rw [execRun, setFinalOutput_confirmed, runLines_confirmed, finalize_confirmed,
      runLines_confirmed, finalize_autoOv, runLines_autoOv] at h
    rw [execRun, setFinalOutput_prompted, runLines_prompted, finalize_prompted,
      runLines_prompted]
    simp only [initExec, initResult, Bool.false_or] at h ⊢
    cases hla : loopLines.any detectOverwritePrompt <;>
      cases hda : drainLines.any detectOverwritePrompt <;>
        simp_all

/-- Witness for C4: with auto-overwrite on and a prompt line in the run,
`overwriteConfirmed = true` and the invariant yields
`overwritePrompted = true`. -/
theorem C4_overwrite_invariant_witness :
    (execRun true [] ["File 'out.mp4' already exists. Overwrite? [y/N]".toList] []
        (some (ExitStatus.exited 0))).result.overwritePrompted = true :=
  (C4_overwrite_invariant true []
      ["File 'out.mp4' already exists. Overwrite? [y/N]".toList] []
      (some (ExitStatus.exited 0))).2 (by decide)

/-- C5: processing the line `File 'out.mp4' already exists. Overwrite? [y/N]`
with auto-overwrite enabled sets `overwritePrompted` and
`overwriteConfirmed`, and writes the affirmative token `y` followed by a
newline to the child's input pipe. -/
theorem C5_auto_confirm_on_prompt :
    (processLine ("File 'out.mp4' already exists. Overwrite? [y/N]".toList)
        (initExec true [])).result.overwritePrompted = true ∧
    (processLine ("File 'out.mp4' already exists. Overwrite? [y/N]".toList)
        (initExec true [])).result.overwriteConfirmed = true ∧
    (processLine ("File 'out.mp4' already exists. Overwrite? [y/N]".toList)
        (initExec true [])).sentInputs = [['y', '\n']] := by
  decide

/-- C6: calling `execute` while an execution is in flight fails immediately
with the concurrent-execution error message, makes no process-launch attempt,
and leaves the executor state (hence the in-flight execution) unchanged. -/
theorem C6_concurrent_reject (es : ExecutorState) (pid : Int)
    (loopLines drainLines : List (List Char)) (obs : Option ExitStatus)
    (h : es.isRunning = true) :
    executeStep es pid loopLines drainLines obs =
      (es, { initResult with errMsg := busyMsg }, false) := by
  simp [executeStep, h]

/-- Witness for C6 at a concrete busy executor. -/
theorem C6_concurrent_reject_witness :
    executeStep { initialExecutor with isRunning := true } 7 [] [] none =
      ({ initialExecutor with isRunning := true },
        { initResult with errMsg := busyMsg }, false) :=
  C6_concurrent_reject { initialExecutor with isRunning := true } 7 [] [] none rfl

/-- C7: once `success` is true, processing any later lines, finalizing from
any observed exit status, and the final drain never reset it; success is
monotone over the run. -/
theorem C7_success_monotone (st : ExecState)
    (laterLines drainLines : List (List Char)) (obs : Option ExitStatus)
    (h : st.result.success = true) :
    (setFinalOutput (runLines drainLines
        (finalize obs (runLines laterLines st)))).result.success = true := by
  rw [setFinalOutput_success, runLines_success, finalize_success,
    runLines_success, h]
  simp

/-- Witness for C7: success set by a pattern line survives a later error line
and a nonzero exit code. -/
theorem C7_success_monotone_witness :
    (setFinalOutput (runLines []
        (finalize (some (ExitStatus.exited 1))
          (runLines [("Error: Invalid argument".toList)]
            (processLine ("video: 1kB audio: 1kB subtitle: 0kB".toList)
              (initExec true [])))))).result.success = true :=
  C7_success_monotone
    (processLine ("video: 1kB audio: 1kB subtitle: 0kB".toList) (initExec true []))
    [("Error: Invalid argument".toList)] [] (some (ExitStatus.exited 1)) (by decide)

/-- C8 counterexample: when the child's termination is observed but was
signal-caused (`WIFEXITED` false, e.g. after forced termination), the code
stores the sentinel -1 as the exit code, so "terminate observed" does not
imply "exitCode meaningful". -/
theorem C8_counterexample_signaled_sentinel :
    (execRun true [] [] [] (some ExitStatus.signaled)).result.exitCode = -1 ∧
    (some ExitStatus.signaled).isSome = true := by
  decide

/-- C8 (amended): at the end of an execution, `exitCode` differs from the -1
sentinel if and only if the child was observed to terminate by a NORMAL exit;
a signal-caused termination (including forced termination), although
observed, leaves the sentinel. -/
theorem C8_exitCode_amended (autoOv : Bool) (prior : List Char)
    (loopLines drainLines : List (List Char)) (obs : Option ExitStatus) :
    (execRun autoOv prior loopLines drainLines obs).result.exitCode ≠ -1 ↔
      (∃ c : Nat, obs = some (ExitStatus.exited c)) := by
  rw [execRun, setFinalOutput_exitCode, runLines_exitCode, finalize_exitCode]
  match obs with
  | none => simp [runLines_exitCode, initExec, initResult]
  | some (ExitStatus.exited c) =>
    simp only [ne_eq]
    constructor
    · intro _; exact ⟨c, rfl⟩
    · intro _; omega
  | some ExitStatus.signaled => simp

/-- Witness for C8 (amended): a normal exit gives a non-sentinel code. -/
theorem C8_exitCode_amended_witness :
    (execRun true [] [] [] (some (ExitStatus.exited 0))).result.exitCode ≠ -1 :=
  (C8_exitCode_amended true [] [] [] (some (ExitStatus.exited 0))).mpr ⟨0, rfl⟩

/-- C9 counterexample: after a completed execution (running flag false) the
child pid is still recorded (`cleanupUnixPipes` never resets `child_pid_`),
so `stop()` does issue a termination signal, contrary to the claim. -/
theorem C9_counterexample_stale_pid_signal :
    ((executeStep initialExecutor 123 [] [] (some (ExitStatus.exited 0))).1.isRunning
      = false) ∧
    (stop ((executeStep initialExecutor 123 [] [] (some (ExitStatus.exited 0))).1)).2
      = true := by
  decide

/-- C9 (amended): `stop()` before any execution has started only clears the
running flag and issues no signal (the pid field still holds the -1
sentinel); but because `child_pid_` is never reset after a completed
execution, `stop()` after any completed execution does issue a termination
signal to the stale recorded pid. -/
theorem C9_stop_amended :
    (stop initialExecutor).2 = false ∧
    (stop initialExecutor).1 = { initialExecutor with isRunning := false } ∧
    (∀ (es : ExecutorState) (pid : Int) (ll dl : List (List Char))
        (obs : Option ExitStatus),
      es.isRunning = false → 0 < pid →
        (stop (executeStep es pid ll dl obs).1).2 = true) := by
  refine ⟨by decide, by decide, ?_⟩
  intro es pid ll dl obs h hpid
  simp [executeStep, h, stop, hpid]

/-- Witness for C9 (amended): stop after a completed run signals the stale
pid. -/
theorem C9_stop_amended_witness :
    (stop (executeStep initialExecutor 123 [] [] none).1).2 = true :=
  C9_stop_amended.2.2 initialExecutor 123 [] [] none rfl (by decide)

/-- C10: `last_error_` is not cleared when a new `execute` call begins: if no
line of the second run matches the error heuristic, `getLastError` after the
second run returns the same text as after the first run. -/
theorem C10_lastError_persists (es : ExecutorState) (pid1 pid2 : Int)
    (ll1 dl1 ll2 dl2 : List (List Char)) (obs1 obs2 : Option ExitStatus)
    (h2 : ∀ l ∈ ll2, detectError l = false)
    (h3 : ∀ l ∈ dl2, detectError l = false) :
    getLastError (executeStep (executeStep es pid1 ll1 dl1 obs1).1
        pid2 ll2 dl2 obs2).1 =
      getLastError (executeStep es pid1 ll1 dl1 obs1).1 := by
  have hclean : ∀ (auto : Bool) (prior : List Char) (obs : Option ExitStatus),
      (execRun auto prior ll2 dl2 obs).lastError = prior := by
    intro auto prior obs
    rw [execRun, setFinalOutput_lastError, runLines_lastError_clean dl2 _ h3,
      finalize_lastError, runLines_lastError_clean ll2 _ h2]
    rfl
  by_cases h : es.isRunning = true
  · simp [executeStep, h, getLastError]
  · have h' : es.isRunning = false := by simpa using h
    simp [executeStep, h', getLastError, hclean]

/-- Witness for C10: an error recorded in run one is still returned by
`getLastError` after an error-free run two. -/
theorem C10_lastError_persists_witness :
    getLastError (executeStep
        (executeStep initialExecutor 11 ["Error: Invalid argument".toList] []
          (some (ExitStatus.exited 1))).1
        12 ["frame= 100 fps= 25".toList] [] (some (ExitStatus.exited 0))).1 =
      getLastError (executeStep initialExecutor 11
        ["Error: Invalid argument".toList] [] (some (ExitStatus.exited 1))).1 :=
  C10_lastError_persists initialExecutor 11 12
    ["Error: Invalid argument".toList] [] ["frame= 100 fps= 25".toList] []
    (some (ExitStatus.exited 1)) (some (ExitStatus.exited 0))
    (by decide) (by decide)

end FFmpegExec
